import Mathlib

/-!
Shallow embedding of the dugite-extra sources under verification:
`src/command/checkout.ts`, `src/command/test-helper.ts` and the streamed
checkout-progress parsing layer they use.

The progress module (`CheckoutProgressParser`, `progressProcessCallback` from
`src/progress`) is not part of the given sources; it is modelled from the
specification (sections 3, 4.1 and 4.2 of the spec).  The command files
`checkout.ts` and `test-helper.ts` are embedded directly from their sources.

Text is modelled as `List Char`; percentages as exact rationals `ℚ` (the
sources use JavaScript numbers; all claims here involve only exactly
representable values).  The external library functions `Path.relative` and
`path.join` (Node.js, not repository code) are abstracted as function
parameters `rel` and `join`.
-/

namespace DugiteExtra

/-- Modelled from the spec: a parsed progress record, "a tagged variant — either
`Progress{ text: string, percent: float in [0,1] }` or `Unknown` (input did not
match expected pattern)" (spec section 3).  The percent bound stated there is a
data-model annotation; the computation rule of section 4.1 is the authority for
the value actually stored. -/
inductive ProgressRecord where
  | progress (text : List Char) (percent : ℚ)
  | unknown
deriving DecidableEq

/-- Numeric value of a decimal digit character. -/
def digitVal (c : Char) : Nat := c.toNat - '0'.toNat

/-- Value of a list of decimal digit characters, most significant first. -/
def digitsVal (ds : List Char) : Nat := ds.foldl (fun acc c => 10 * acc + digitVal c) 0

/-- Splits a maximal prefix of decimal digits off a character list. -/
def takeDigits : List Char → List Char × List Char
  | [] => ([], [])
  | c :: rest =>
    if c.isDigit then
      let p := takeDigits rest
      (c :: p.1, p.2)
    else ([], c :: rest)

/-- Splits a line at its first colon: `some (label, rest)` when a colon occurs,
`none` otherwise. -/
def splitAtColon : List Char → Option (List Char × List Char)
  | [] => none
  | c :: rest =>
    if c = ':' then some ([], rest)
    else
      match splitAtColon rest with
      | none => none
      | some p => some (c :: p.1, p.2)

/-- Modelled from the spec: recognizes the trailing `(current/total)` pair of a
progress line (spec section 4.1: "a count and a total, e.g.
'Checking out files: 42% (420/1000)'"). -/
def matchPair : List Char → Option (Nat × Nat)
  | '(' :: rest =>
    let p := takeDigits rest
    if p.1.isEmpty then none
    else
      match p.2 with
      | '/' :: r2 =>
        let q := takeDigits r2
        if q.1.isEmpty then none
        else
          match q.2 with
          | [')'] => some (digitsVal p.1, digitsVal q.1)
          | _ => none
      | _ => none
  | _ => none

/-- Modelled from the spec: what may follow the percent token — either the end
of the line (explicit percent token only) or a space-separated
`(current/total)` pair (spec section 4.1). -/
def matchAfterPercent : List Char → Option (Option (Nat × Nat))
  | [] => some none
  | ' ' :: rest =>
    match matchPair (List.dropWhile (fun c => c = ' ') rest) with
    | some p => some (some p)
    | none => none
  | _ => none

/-- Modelled from the spec: recognizes one progress line, "a phase label
followed by a count and a total" (spec section 4.1).  Returns the percent
token's value together with the optional `(current/total)` pair, or `none`
when the line does not match the known pattern. -/
def matchLine (line : List Char) : Option (Nat × Option (Nat × Nat)) :=
  match splitAtColon line with
  | none => none
  | some lr =>
    if lr.1.isEmpty then none
    else
      match lr.2 with
      | ' ' :: r1 =>
        let r2 := List.dropWhile (fun c => c = ' ') r1
        let p := takeDigits r2
        if p.1.isEmpty then none
        else
          match p.2 with
          | '%' :: r4 =>
            match matchAfterPercent r4 with
            | some pair => some (digitsVal p.1, pair)
            | none => none
          | _ => none
      | _ => none

/-- Modelled from the spec: "Percent is computed from the 'current/total' pair
when present, or taken directly from an explicit percent token if present;
division by a zero total must not fail — treat as 0% progress, do not throw"
(spec section 4.1). -/
def computePercent (pct : Nat) (pair : Option (Nat × Nat)) : ℚ :=
  match pair with
  | some ct => if ct.2 = 0 then 0 else (ct.1 : ℚ) / (ct.2 : ℚ)
  | none => (pct : ℚ) / 100

/-- Modelled from the spec: parses a single complete line into a
`ProgressRecord`; "lines that do not match any known pattern yield no record
(not an error)" (spec section 4.1). -/
def parseLine (line : List Char) : ProgressRecord :=
  match matchLine line with
  | none => ProgressRecord.unknown
  | some r => ProgressRecord.progress line (computePercent r.1 r.2)

/-- Modelled from the spec: the parser's internal buffer holding an incomplete
trailing line across calls (spec sections 3 and 4.1). -/
structure ParserState where
  buffer : List Char
deriving DecidableEq

/-- The parser state at the start of an operation: empty buffer. -/
def initialParserState : ParserState := ⟨[]⟩

/-- Splits a chunk of text into its complete lines (newline-terminated,
newline removed) and the trailing incomplete line. -/
def splitChunk : List Char → List (List Char) × List Char
  | [] => ([], [])
  | c :: rest =>
    let p := splitChunk rest
    if c = '\n' then ([] :: p.1, p.2)
    else
      match p.1 with
      | [] => ([], c :: p.2)
      | l :: ls => ((c :: l) :: ls, p.2)

/-- Modelled from the spec: feeding one raw text chunk to the parser.  The
buffered partial line is prepended, every complete line is parsed in order,
and the trailing incomplete line is kept in the buffer (spec section 4.1). -/
def ParserState.insert (st : ParserState) (chunk : List Char) : ParserState × List ProgressRecord :=
  let p := splitChunk (st.buffer ++ chunk)
  (⟨p.2⟩, p.1.map parseLine)

/-- Modelled from the spec: "final flush on stream close must process any
remaining buffered partial line as best-effort (attempt match; discard if
unmatched)" (spec section 4.1). -/
def ParserState.finish (st : ParserState) : List ProgressRecord :=
  if st.buffer.isEmpty then []
  else
    match parseLine st.buffer with
    | ProgressRecord.unknown => []
    | r => [r]

/-- Feeds a list of chunks to the parser in order, collecting the records. -/
def feedAll (st : ParserState) : List (List Char) → ParserState × List ProgressRecord
  | [] => (st, [])
  | c :: cs =>
    let p := st.insert c
    let q := feedAll p.1 cs
    (q.1, p.2 ++ q.2)

/-- All records produced for a stream of chunks, final flush included. -/
def runRecords (chunks : List (List Char)) : List ProgressRecord :=
  let p := feedAll initialParserState chunks
  p.2 ++ p.1.finish

/-- The caller-facing progress event of `checkoutBranch`
(`src/command/checkout.ts`, lines 26-43): field set
`{kind, title, description?, value, targetBranch}`, with `description`
absent on the synthetic initial event. -/
structure CheckoutProgressEvent where
  kind : String
  title : String
  description : Option (List Char)
  value : ℚ
  targetBranch : Option String
deriving DecidableEq

/-- The mapping closure of `checkoutBranch` (`src/command/checkout.ts`,
lines 32-39): a record of kind progress becomes an event carrying the static
kind, title and target branch plus the record's text and percent; an unknown
record produces no event. -/
def recordToEvent (name : String) : ProgressRecord → Option CheckoutProgressEvent
  | ProgressRecord.progress text percent =>
      some { kind := "checkout"
           , title := "Checking out branch " ++ name
           , description := some text
           , value := percent
           , targetBranch := some name }
  | ProgressRecord.unknown => none

/-- The synthetic initial event of `checkoutBranch`
(`src/command/checkout.ts`, line 43): value 0, no description. -/
def initialProgressEvent (name : String) : CheckoutProgressEvent :=
  { kind := "checkout"
  , title := "Checking out branch " ++ name
  , description := none
  , value := 0
  , targetBranch := some name }

/-- Modelled from the spec: `progressProcessCallback` (from the missing
`src/progress`) attaches the parser to the process output stream and funnels
each parsed record through the mapping closure to the caller's callback, in
receipt order (spec section 4.2).  The stream is modelled as the list of text
chunks it delivers. -/
def streamEvents (name : String) (chunks : List (List Char)) : List CheckoutProgressEvent :=
  (runRecords chunks).filterMap (recordToEvent name)

/-- The observable outcome of one `checkoutBranch` call: the argument list
handed to git and the events delivered to the progress callback, in order. -/
structure CheckoutBranchRun where
  args : List String
  events : List CheckoutProgressEvent
deriving DecidableEq

/-- `checkoutBranch` (`src/command/checkout.ts`, lines 23-55).
`hasProgressCallback` states whether the optional `progressCallback` argument
was supplied; `chunks` is the text the spawned process writes to its output
stream.  When a callback is supplied, the synthetic initial event is emitted
first (line 43, before `git` is invoked) and the `--progress` flag is added;
otherwise no event is delivered and no flag is added. -/
def checkoutBranch (name : String) (hasProgressCallback : Bool)
    (chunks : List (List Char)) : CheckoutBranchRun :=
  if hasProgressCallback then
    { args := ["checkout", "--progress", name, "--"]
    , events := initialProgressEvent name :: streamEvents name chunks }
  else
    { args := ["checkout", name, "--"]
    , events := [] }

/-- `checkout` (`src/command/checkout.ts`, lines 71-85).  `rel` abstracts
Node's `Path.relative`; the JavaScript truthiness test `if (commitSHA)` is an
emptiness test on the string. -/
def checkout (rel : String → String → String) (repositoryPath : String)
    (paths : List String) (commitSHA : String) (merge force : Bool) : List String :=
  ["checkout"]
    ++ (if commitSHA = "" then [] else [commitSHA])
    ++ (if merge then ["-m"] else [])
    ++ (if force then ["-f"] else [])
    ++ ["--"]
    ++ paths.map (rel repositoryPath)

/-- `checkoutPaths` (`src/command/checkout.ts`, lines 58-60): checks out the
given paths at `HEAD` with `merge` and `force` both false. -/
def checkoutPaths (rel : String → String → String) (repositoryPath : String)
    (paths : List String) : List String :=
  checkout rel repositoryPath paths "HEAD" false false

/-- Spec-side predicate: whether a record is a progress record (used only to
state properties, not part of the source). -/
def ProgressRecord.isProgress : ProgressRecord → Bool
  | ProgressRecord.progress _ _ => true
  | ProgressRecord.unknown => false

/-- First line of the spec's two-line callback scenario. -/
def scenarioLine1 : List Char := "Checking out files: 10% (1/10)".toList

/-- Second line of the spec's two-line callback scenario. -/
def scenarioLine2 : List Char := "Checking out files: 100% (10/10)".toList

/-- A progress line whose count exceeds its total. -/
def overLine : List Char := "a: 0% (3/2)".toList

/-- A progress line reporting completion of a single item. -/
def fullLine : List Char := "a: 100% (1/1)".toList

/-!
Embedding of `src/command/test-helper.ts`.  The file system touched through
`fs-extra` is modelled as an association list from absolute path to entry;
the synchronous `fs` calls used by the helpers become pure functions on it.
A helper that throws is modelled as returning `none` together with the file
system state left behind at the throw; `path.join` is abstracted as the
function parameter `join`.  The single-element overload (a bare string or
object instead of an array) is the one-element list.
-/

/-- A file-system entry: a regular file with its content, or a directory. -/
inductive FsEntry where
  | file (data : String)
  | directory
deriving DecidableEq

/-- The modelled file system: association list from path to entry. -/
abbrev FileSystem := List (String × FsEntry)

/-- `fs.existsSync`. -/
def existsSync (fs : FileSystem) (p : String) : Bool := (fs.lookup p).isSome

/-- `fs.statSync(p).isFile()` (false also when the path does not exist;
the helpers only call it after an existence check). -/
def isFileSync (fs : FileSystem) (p : String) : Bool :=
  match fs.lookup p with
  | some (FsEntry.file _) => true
  | _ => false

/-- `fs.unlinkSync`: removes the entry at the path. -/
def unlinkSync (fs : FileSystem) (p : String) : FileSystem :=
  fs.filter (fun e => e.1 != p)

/-- `fs.writeFileSync`: creates or overwrites the file at the path. -/
def writeFileSync (fs : FileSystem) (p : String) (data : String) : FileSystem :=
  (p, FsEntry.file data) :: fs.filter (fun e => e.1 != p)

/-- `fs.readFileSync` returning the file content when the path is a file. -/
def readFileSync (fs : FileSystem) (p : String) : Option String :=
  match fs.lookup p with
  | some (FsEntry.file d) => some d
  | _ => none

/-- `fs.renameSync`: moves the entry at the old path to the new path. -/
def renameSync (fs : FileSystem) (o n : String) : FileSystem :=
  match fs.lookup o with
  | some e => (n, e) :: fs.filter (fun x => x.1 != o && x.1 != n)
  | none => fs

/-- The `for` loop of `remove` (`src/command/test-helper.ts`, lines 50-61):
processes the joined paths in order; `false` marks a thrown error, with the
file system as it stands at that point. -/
def removeLoop (fs : FileSystem) : List String → FileSystem × Bool
  | [] => (fs, true)
  | f :: rest =>
    if existsSync fs f = false then (fs, false)
    else if isFileSync fs f = false then (fs, false)
    else
      let fs1 := unlinkSync fs f
      if existsSync fs1 f = true then (fs1, false)
      else removeLoop fs1 rest

/-- `remove` (`src/command/test-helper.ts`, lines 48-63): joins every file
name with the repository path up front, deletes them in order, and returns
the joined paths on success; `none` models the thrown error. -/
def remove (join : String → String → String) (fs : FileSystem)
    (repositoryPath : String) (filesToDelete : List String) :
    FileSystem × Option (List String) :=
  let files := filesToDelete.map (join repositoryPath)
  let p := removeLoop fs files
  (p.1, if p.2 then some files else none)

/-- The `for` loop of `add` (`src/command/test-helper.ts`, lines 69-77). -/
def addLoop (fs : FileSystem) : List (String × String) → FileSystem × Bool
  | [] => (fs, true)
  | f :: rest =>
    if existsSync fs f.1 = true then (fs, false)
    else
      let fs1 := writeFileSync fs f.1 f.2
      if existsSync fs1 f.1 = false then (fs1, false)
      else addLoop fs1 rest

/-- `add` (`src/command/test-helper.ts`, lines 65-79): the entry's `data`
field defaults to the empty string (`f.data || ''`). -/
def add (join : String → String → String) (fs : FileSystem)
    (repositoryPath : String) (filesToCreate : List (String × Option String)) :
    FileSystem × Option (List String) :=
  let files := filesToCreate.map (fun f => (join repositoryPath f.1, f.2.getD ""))
  let p := addLoop fs files
  (p.1, if p.2 then some (files.map (fun f => f.1)) else none)

/-- The `for` loop of `modify` (`src/command/test-helper.ts`, lines 85-96). -/
def modifyLoop (fs : FileSystem) : List (String × String) → FileSystem × Bool
  | [] => (fs, true)
  | f :: rest =>
    if existsSync fs f.1 = false then (fs, false)
    else if isFileSync fs f.1 = false then (fs, false)
    else
      let fs1 := writeFileSync fs f.1 f.2
      if existsSync fs1 f.1 = false ∨ readFileSync fs1 f.1 ≠ some f.2 then (fs1, false)
      else modifyLoop fs1 rest

/-- `modify` (`src/command/test-helper.ts`, lines 81-98). -/
def modify (join : String → String → String) (fs : FileSystem)
    (repositoryPath : String) (filesToModify : List (String × String)) :
    FileSystem × Option (List String) :=
  let files := filesToModify.map (fun f => (join repositoryPath f.1, f.2))
  let p := modifyLoop fs files
  (p.1, if p.2 then some (files.map (fun f => f.1)) else none)

/-- The `for` loop of `rename` (`src/command/test-helper.ts`, lines 104-118). -/
def renameLoop (fs : FileSystem) : List (String × String) → FileSystem × Bool
  | [] => (fs, true)
  | f :: rest =>
    if existsSync fs f.1 = false then (fs, false)
    else if existsSync fs f.2 = true then (fs, false)
    else if isFileSync fs f.1 = false then (fs, false)
    else
      let fs1 := renameSync fs f.1 f.2
      if existsSync fs1 f.2 = false ∨ existsSync fs1 f.1 = true then (fs1, false)
      else renameLoop fs1 rest

/-- `rename` (`src/command/test-helper.ts`, lines 100-120): on success the
returned list is all old paths followed by all new paths, each joined with
the repository path. -/
def rename (join : String → String → String) (fs : FileSystem)
    (repositoryPath : String) (filesToRename : List (String × String)) :
    FileSystem × Option (List String) :=
  let files := filesToRename.map (fun f => (join repositoryPath f.1, join repositoryPath f.2))
  let p := renameLoop fs files
  (p.1, if p.2 then some (files.map (fun f => f.1) ++ files.map (fun f => f.2)) else none)

/-! Helper lemmas about the chunk splitter and the parser pipeline. -/

/-- Unfolding lemma for `splitChunk` on a cons cell. -/
theorem splitChunk_cons (c : Char) (rest : List Char) :
    splitChunk (c :: rest) =
      if c = '\n' then ([] :: (splitChunk rest).1, (splitChunk rest).2)
      else
        match (splitChunk rest).1 with
        | [] => ([], c :: (splitChunk rest).2)
        | l :: ls => ((c :: l) :: ls, (splitChunk rest).2) := rfl

/-- Splitting a concatenation: the complete lines of `a` come first, and the
trailing fragment of `a` is prepended to `t`. -/
theorem splitChunk_append (a t : List Char) :
    splitChunk (a ++ t) =
      ((splitChunk a).1 ++ (splitChunk ((splitChunk a).2 ++ t)).1,
       (splitChunk ((splitChunk a).2 ++ t)).2) := by
  induction a with
  | nil => simp [splitChunk]
  | cons c rest ih =>
    rw [List.cons_append, splitChunk_cons, splitChunk_cons]
    by_cases hc : c = '\n'
    · simp [hc, ih]
    · simp only [if_neg hc]
      rw [ih]
      rcases hsr : (splitChunk rest).1 with _ | ⟨l, ls⟩
      · simp only [List.nil_append]
        rw [List.cons_append, splitChunk_cons]
        simp [hc]
      · simp

/-- Feeding the concatenation of two chunks equals feeding them one after the
other, with the record lists concatenated. -/
theorem insert_append (st : ParserState) (s t : List Char) :
    st.insert (s ++ t) =
      (((st.insert s).1.insert t).1,
       (st.insert s).2 ++ ((st.insert s).1.insert t).2) := by
  have h := splitChunk_append (st.buffer ++ s) t
  simp only [ParserState.insert]
  rw [← List.append_assoc, h]
  simp

/-- A newline-free line followed by a newline splits into exactly that line
with an empty trailing fragment. -/
theorem splitChunk_line (l : List Char) (hn : '\n' ∉ l) :
    splitChunk (l ++ ['\n']) = ([l], []) := by
  induction l with
  | nil => simp [splitChunk]
  | cons c rest ih =>
    have hc : c ≠ '\n' := fun h => hn (h ▸ List.mem_cons_self c rest)
    have hr : '\n' ∉ rest := fun h => hn (List.mem_cons_of_mem c h)
    rw [List.cons_append, splitChunk_cons, ih hr]
    simp [hc]

/-- The percent computed for any matched line is nonnegative. -/
theorem computePercent_nonneg (pct : Nat) (pair : Option (Nat × Nat)) :
    0 ≤ computePercent pct pair := by
  unfold computePercent
  rcases pair with _ | ⟨cur, total⟩
  · exact div_nonneg (Nat.cast_nonneg pct) (by norm_num)
  · by_cases h : total = 0
    · simp [h]
    · simp only [h, if_false]
      exact div_nonneg (Nat.cast_nonneg cur) (Nat.cast_nonneg total)

/-- Every progress record produced by `parseLine` carries a nonnegative
percent. -/
theorem parseLine_percent_nonneg (l t : List Char) (p : ℚ)
    (h : parseLine l = ProgressRecord.progress t p) : 0 ≤ p := by
  unfold parseLine at h
  rcases hm : matchLine l with _ | r
  · rw [hm] at h; exact absurd h (by simp)
  · rw [hm] at h
    have hp : computePercent r.1 r.2 = p := by
      injection h with h1 h2
    exact hp ▸ computePercent_nonneg r.1 r.2

/-- Every record a single `insert` produces is `parseLine` of some line. -/
theorem mem_insert_records (st : ParserState) (c : List Char)
    (r : ProgressRecord) (h : r ∈ (st.insert c).2) : ∃ l, r = parseLine l := by
  rcases List.mem_map.mp h with ⟨l, _, hl⟩
  exact ⟨l, hl.symm⟩

/-- Every record `feedAll` produces is `parseLine` of some line. -/
theorem mem_feedAll_records (chunks : List (List Char)) :
    ∀ st r, r ∈ (feedAll st chunks).2 → ∃ l, r = parseLine l := by
  induction chunks with
  | nil => intro st r h; exact absurd h (by simp [feedAll])
  | cons c cs ih =>
    intro st r h
    rcases List.mem_append.mp (by simpa [feedAll] using h) with h1 | h2
    · exact mem_insert_records st c r h1
    · exact ih _ r h2

/-- Every record the final flush produces is `parseLine` of the buffer. -/
theorem mem_finish_records (st : ParserState) (r : ProgressRecord)
    (h : r ∈ st.finish) : ∃ l, r = parseLine l := by
  unfold ParserState.finish at h
  by_cases hb : st.buffer.isEmpty
  · rw [if_pos hb] at h; exact absurd h (by simp)
  · rw [if_neg hb] at h
    rcases hp : parseLine st.buffer with _ | _
    · rw [hp] at h
      exact ⟨st.buffer, by simpa using (List.mem_singleton.mp h).symm ▸ hp.symm⟩
    · rw [hp] at h; exact absurd h (by simp)

/-- Every record of a full parser run is `parseLine` of some line. -/
theorem mem_runRecords (chunks : List (List Char)) (r : ProgressRecord)
    (h : r ∈ runRecords chunks) : ∃ l, r = parseLine l := by
  rcases List.mem_append.mp (by simpa [runRecords] using h) with h1 | h2
  · exact mem_feedAll_records chunks _ r h1
  · exact mem_finish_records _ r h2

/-- `filterMap` produces as many elements as the predicate `isSome ∘ f`
counts. -/
theorem length_filterMap_eq (f : ProgressRecord → Option CheckoutProgressEvent)
    (l : List ProgressRecord) :
    (l.filterMap f).length = (l.filter (fun r => (f r).isSome)).length := by
  induction l with
  | nil => simp
  | cons r rs ih =>
    rcases h : f r with _ | e
    · simp [List.filterMap_cons, List.filter_cons, h, ih]
    · simp [List.filterMap_cons, List.filter_cons, h, ih]

/-! The claim theorems. -/

/-- Claim C1: for every call to `checkoutBranch` with a progress callback
supplied, the callback's first invocation is a synthetic event with value 0
and no description field, and it precedes every stream-derived progress
event: the event sequence is exactly the synthetic zero event followed by
the stream-derived events. -/
theorem checkoutBranch_initial_zero_event (name : String) (chunks : List (List Char)) :
    (checkoutBranch name true chunks).events =
      { kind := "checkout"
      , title := "Checking out branch " ++ name
      , description := none
      , value := 0
      , targetBranch := some name } :: streamEvents name chunks := by
  simp [checkoutBranch, initialProgressEvent]

/-- Claim C4: chunk-splitting invariance — for every parser state, feeding a
text as one chunk yields the same trailing buffer and the same record
sequence as feeding the two pieces of an arbitrary split in order across two
calls. -/
theorem chunk_split_invariance (st : ParserState) (s t : List Char) :
    ((st.insert s).1.insert t).1 = (st.insert (s ++ t)).1 ∧
    (st.insert s).2 ++ ((st.insert s).1.insert t).2 = (st.insert (s ++ t)).2 := by
  rw [insert_append st s t]
  exact ⟨rfl, rfl⟩

/-- Claim C8: the argument list `checkoutBranch` passes to git is exactly
`['checkout', '--progress', name, '--']` when a progress callback is
supplied, and exactly `['checkout', name, '--']` when it is not. -/
theorem checkoutBranch_progress_flag (name : String) (chunks : List (List Char)) :
    (checkoutBranch name true chunks).args = ["checkout", "--progress", name, "--"] ∧
    (checkoutBranch name false chunks).args = ["checkout", name, "--"] := by
  constructor <;> simp [checkoutBranch]

/-- Claim C3: for every matched progress line whose total equals 0, the
parser produces a record with percent 0; `parseLine` is a total function, so
the division-by-zero branch never raises. -/
theorem zero_total_percent_zero (line : List Char) (pct cur : Nat)
    (h : matchLine line = some (pct, some (cur, 0))) :
    parseLine line = ProgressRecord.progress line 0 := by
  simp [parseLine, h, computePercent]

/-- Witness for claim C3 at the line `Checking out files: 50% (5/0)`. -/
theorem zero_total_percent_zero_witness :
    parseLine ("Checking out files: 50% (5/0)".toList) =
      ProgressRecord.progress ("Checking out files: 50% (5/0)".toList) 0 :=
  zero_total_percent_zero ("Checking out files: 50% (5/0)".toList) 50 5 (by decide)

/-- Claim C5: for every well-formed progress line containing a
`count/total` pair with a nonzero total, the percent of the parsed record is
exactly count divided by total. -/
theorem count_total_percent (line : List Char) (pct cur total : Nat)
    (h : matchLine line = some (pct, some (cur, total))) (htot : total ≠ 0) :
    parseLine line = ProgressRecord.progress line ((cur : ℚ) / (total : ℚ)) := by
  simp [parseLine, h, computePercent, htot]

/-- Witness for claim C5 at the line `Resolving deltas:  37% (370/1000)`,
whose record has value 370/1000 = 0.37. -/
theorem count_total_percent_witness :
    parseLine ("Resolving deltas:  37% (370/1000)".toList) =
      ProgressRecord.progress ("Resolving deltas:  37% (370/1000)".toList)
        ((370 : ℚ) / 1000) ∧
    (370 : ℚ) / 1000 = 37 / 100 :=
  ⟨count_total_percent ("Resolving deltas:  37% (370/1000)".toList) 37 370 1000
      (by decide) (by decide),
   by norm_num⟩

/-- Claim C6: an input line that does not match a known progress pattern
yields no progress record — `parseLine` marks it unknown (and, being total,
raises nothing), and feeding it as a full line to the parser produces no
callback event for any branch name. -/
theorem unmatched_line_no_record (line : List Char)
    (hn : '\n' ∉ line) (h : matchLine line = none) :
    parseLine line = ProgressRecord.unknown ∧
    ∀ name, ((initialParserState.insert (line ++ ['\n'])).2).filterMap
      (recordToEvent name) = [] := by
  have hp : parseLine line = ProgressRecord.unknown := by simp [parseLine, h]
  refine ⟨hp, fun name => ?_⟩
  simp [ParserState.insert, initialParserState, splitChunk_line line hn, hp, recordToEvent]

/-- Witness for claim C6 at the malformed line `Checking out files: oops`. -/
theorem unmatched_line_no_record_witness :
    parseLine ("Checking out files: oops".toList) = ProgressRecord.unknown ∧
    ∀ name, ((initialParserState.insert ("Checking out files: oops".toList ++ ['\n'])).2).filterMap
      (recordToEvent name) = [] :=
  unmatched_line_no_record ("Checking out files: oops".toList) (by decide) (by decide)

/-- Claim C2: the adapter invokes the callback exactly once per record of
kind progress, in receipt order, and unknown records produce no invocation:
the event stream is the order-preserving image of the progress records, its
length counts exactly the progress records, and the two-line scenario yields
exactly three invocations with values 0, 0.1 and 1.0 counting the synthetic
start event. -/
theorem adapter_once_per_progress_record :
    (∀ name chunks, streamEvents name chunks =
      (runRecords chunks).filterMap (recordToEvent name)) ∧
    (∀ name chunks, (streamEvents name chunks).length =
      ((runRecords chunks).filter ProgressRecord.isProgress).length) ∧
    (∀ name, recordToEvent name ProgressRecord.unknown = none) ∧
    (∀ name text percent, recordToEvent name (ProgressRecord.progress text percent) =
      some { kind := "checkout"
           , title := "Checking out branch " ++ name
           , description := some text
           , value := percent
           , targetBranch := some name }) ∧
    (∀ name, ((checkoutBranch name true
        ["Checking out files: 10% (1/10)\n".toList,
         "Checking out files: 100% (10/10)\n".toList]).events).map
        (fun e => e.value) = [0, 1/10, 1]) := by
  refine ⟨fun name chunks => rfl, fun name chunks => ?_, fun name => rfl,
    fun name text percent => rfl, fun name => ?_⟩
  · rw [streamEvents, length_filterMap_eq]
    congr 1
    apply List.filter_congr
    intro r _
    cases r <;> simp [recordToEvent, ProgressRecord.isProgress]
  · have hc1 : "Checking out files: 10% (1/10)\n".toList = scenarioLine1 ++ ['\n'] := by
      decide
    have hc2 : "Checking out files: 100% (10/10)\n".toList = scenarioLine2 ++ ['\n'] := by
      decide
    have hs1 : splitChunk (scenarioLine1 ++ ['\n']) = ([scenarioLine1], []) :=
      splitChunk_line _ (by decide)
    have hs2 : splitChunk (scenarioLine2 ++ ['\n']) = ([scenarioLine2], []) :=
      splitChunk_line _ (by decide)
    have hm1 : matchLine scenarioLine1 = some (10, some (1, 10)) := by decide
    have hm2 : matchLine scenarioLine2 = some (100, some (10, 10)) := by decide
    rw [hc1, hc2]
    simp [checkoutBranch, initialProgressEvent, streamEvents, runRecords, feedAll,
      ParserState.insert, initialParserState, ParserState.finish, hs1, hs2,
      parseLine, hm1, hm2, computePercent, recordToEvent]

/-- Claim C7 counterexample: the claim asserts every delivered event's value
lies in [0,1], but the stream line `a: 0% (3/2)` produces an event whose
value is 3/2 > 1. -/
theorem stream_event_value_above_one :
    ((checkoutBranch "b" true ["a: 0% (3/2)\n".toList]).events).map
      (fun e => e.value) = [0, 3/2] ∧ ¬ ((3 : ℚ) / 2 ≤ 1) := by
  constructor
  · have hc : "a: 0% (3/2)\n".toList = overLine ++ ['\n'] := by decide
    have hs : splitChunk (overLine ++ ['\n']) = ([overLine], []) :=
      splitChunk_line _ (by decide)
    have hm : matchLine overLine = some (0, some (3, 2)) := by decide
    rw [hc]
    simp [checkoutBranch, initialProgressEvent, streamEvents, runRecords, feedAll,
      ParserState.insert, initialParserState, ParserState.finish, hs,
      parseLine, hm, computePercent, recordToEvent]
  · norm_num

/-- Claim C7 (amended): every stream-derived event delivered by
`checkoutBranch` has exactly the field set {kind, title, description, value,
targetBranch}, with kind `checkout`, title `Checking out branch <name>`,
targetBranch the branch name, description the text of some parsed progress
record whose percent is the event's value; the value is always nonnegative,
and it is at most 1 whenever every progress record parsed from the stream
has percent at most 1 (the claim's unconditional upper bound fails, see the
counterexample). -/
theorem stream_event_fields (name : String) (chunks : List (List Char))
    (e : CheckoutProgressEvent) (he : e ∈ streamEvents name chunks) :
    e.kind = "checkout" ∧
    e.title = "Checking out branch " ++ name ∧
    e.targetBranch = some name ∧
    (∃ t p, e.description = some t ∧ e.value = p ∧
      ProgressRecord.progress t p ∈ runRecords chunks) ∧
    0 ≤ e.value ∧
    ((∀ t p, ProgressRecord.progress t p ∈ runRecords chunks → p ≤ 1) →
      e.value ≤ 1) := by
  rcases List.mem_filterMap.mp he with ⟨r, hr, hre⟩
  rcases r with ⟨t, p⟩ | _
  · have he2 : e = { kind := "checkout"
                   , title := "Checking out branch " ++ name
                   , description := some t
                   , value := p
                   , targetBranch := some name } := by
      simpa [recordToEvent] using hre.symm
    subst he2
    refine ⟨rfl, rfl, rfl, ⟨t, p, rfl, rfl, hr⟩, ?_, fun hb => hb t p hr⟩
    rcases mem_runRecords chunks _ hr with ⟨l, hl⟩
    exact parseLine_percent_nonneg l t p hl.symm
  · exact absurd hre (by simp [recordToEvent])

/-- Witness for claim C7 at the single-line stream `a: 100% (1/1)`. -/
theorem stream_event_fields_witness :
    ({ kind := "checkout"
     , title := "Checking out branch " ++ "b"
     , description := some fullLine
     , value := 1
     , targetBranch := some "b" } : CheckoutProgressEvent).kind = "checkout" ∧
    ({ kind := "checkout"
     , title := "Checking out branch " ++ "b"
     , description := some fullLine
     , value := 1
     , targetBranch := some "b" } : CheckoutProgressEvent).title =
      "Checking out branch " ++ "b" ∧
    ({ kind := "checkout"
     , title := "Checking out branch " ++ "b"
     , description := some fullLine
     , value := 1
     , targetBranch := some "b" } : CheckoutProgressEvent).targetBranch = some "b" ∧
    (∃ t p, ({ kind := "checkout"
             , title := "Checking out branch " ++ "b"
             , description := some fullLine
             , value := 1
             , targetBranch := some "b" } : CheckoutProgressEvent).description = some t ∧
      ({ kind := "checkout"
       , title := "Checking out branch " ++ "b"
       , description := some fullLine
       , value := 1
       , targetBranch := some "b" } : CheckoutProgressEvent).value = p ∧
      ProgressRecord.progress t p ∈ runRecords [fullLine ++ ['\n']]) ∧
    0 ≤ ({ kind := "checkout"
         , title := "Checking out branch " ++ "b"
         , description := some fullLine
         , value := 1
         , targetBranch := some "b" } : CheckoutProgressEvent).value ∧
    ((∀ t p, ProgressRecord.progress t p ∈ runRecords [fullLine ++ ['\n']] → p ≤ 1) →
      ({ kind := "checkout"
       , title := "Checking out branch " ++ "b"
       , description := some fullLine
       , value := 1
       , targetBranch := some "b" } : CheckoutProgressEvent).value ≤ 1) :=
  stream_event_fields "b" [fullLine ++ ['\n']] _ (by
    have hs : splitChunk (fullLine ++ ['\n']) = ([fullLine], []) :=
      splitChunk_line _ (by decide)
    have hm : matchLine fullLine = some (100, some (1, 1)) := by decide
    simp [streamEvents, runRecords, feedAll, ParserState.insert, initialParserState,
      ParserState.finish, hs, parseLine, hm, computePercent, recordToEvent])

/-- Claim C9: `checkout` puts the commit SHA right after `checkout` exactly
when it is nonempty, maps every supplied path through `Path.relative` from
the repository path after the `--` separator, and `checkoutPaths` delegates
with the literal tree-ish `HEAD` and neither `-m` nor `-f`. -/
theorem checkout_args_build (rel : String → String → String) (repositoryPath : String)
    (paths : List String) (commitSHA : String) (merge force : Bool) :
    (commitSHA ≠ "" →
      checkout rel repositoryPath paths commitSHA merge force =
        ["checkout", commitSHA] ++ (if merge then ["-m"] else []) ++
          (if force then ["-f"] else []) ++ ["--"] ++ paths.map (rel repositoryPath)) ∧
    (checkout rel repositoryPath paths "" merge force =
      ["checkout"] ++ (if merge then ["-m"] else []) ++
        (if force then ["-f"] else []) ++ ["--"] ++ paths.map (rel repositoryPath)) ∧
    (checkoutPaths rel repositoryPath paths =
      ["checkout", "HEAD", "--"] ++ paths.map (rel repositoryPath)) := by
  refine ⟨fun h => ?_, ?_, ?_⟩
  · simp [checkout, h]
  · simp [checkout]
  · simp [checkoutPaths, checkout]

/-- Witness for claim C9 with a nonempty commit SHA. -/
theorem checkout_args_build_witness :
    checkout (fun _ p => p) "r" ["a"] "abc" true false =
      ["checkout", "abc"] ++ (if true then ["-m"] else []) ++
        (if false then ["-f"] else []) ++ ["--"] ++ (["a"].map ((fun _ p => p) "r")) :=
  (checkout_args_build (fun _ p => p) "r" ["a"] "abc" true false).1 (by decide)

/-- A successfully processed prefix of `remove`'s loop: processing the
concatenation continues from the prefix's final state. -/
theorem removeLoop_append (A B : List String) (fs fs1 : FileSystem)
    (h : removeLoop fs A = (fs1, true)) :
    removeLoop fs (A ++ B) = removeLoop fs1 B := by
  induction A generalizing fs with
  | nil =>
    simp only [removeLoop, Prod.mk.injEq] at h
    rw [List.nil_append, h.1]
  | cons f A ih =>
    rw [List.cons_append]
    simp only [removeLoop] at h ⊢
    by_cases h1 : existsSync fs f = false
    · rw [if_pos h1] at h; exact absurd (congrArg Prod.snd h) (by simp)
    · rw [if_neg h1] at h ⊢
      by_cases h2 : isFileSync fs f = false
      · rw [if_pos h2] at h; exact absurd (congrArg Prod.snd h) (by simp)
      · rw [if_neg h2] at h ⊢
        by_cases h3 : existsSync (unlinkSync fs f) f = true
        · rw [if_pos h3] at h; exact absurd (congrArg Prod.snd h) (by simp)
        · rw [if_neg h3] at h ⊢
          exact ih _ h

/-- A successfully processed prefix of `add`'s loop. -/
theorem addLoop_append (A B : List (String × String)) (fs fs1 : FileSystem)
    (h : addLoop fs A = (fs1, true)) :
    addLoop fs (A ++ B) = addLoop fs1 B := by
  induction A generalizing fs with
  | nil =>
    simp only [addLoop, Prod.mk.injEq] at h
    rw [List.nil_append, h.1]
  | cons f A ih =>
    rw [List.cons_append]
    simp only [addLoop] at h ⊢
    by_cases h1 : existsSync fs f.1 = true
    · rw [if_pos h1] at h; exact absurd (congrArg Prod.snd h) (by simp)
    · rw [if_neg h1] at h ⊢
      by_cases h2 : existsSync (writeFileSync fs f.1 f.2) f.1 = false
      · rw [if_pos h2] at h; exact absurd (congrArg Prod.snd h) (by simp)
      · rw [if_neg h2] at h ⊢
        exact ih _ h

/-- A successfully processed prefix of `modify`'s loop. -/
theorem modifyLoop_append (A B : List (String × String)) (fs fs1 : FileSystem)
    (h : modifyLoop fs A = (fs1, true)) :
    modifyLoop fs (A ++ B) = modifyLoop fs1 B := by
  induction A generalizing fs with
  | nil =>
    simp only [modifyLoop, Prod.mk.injEq] at h
    rw [List.nil_append, h.1]
  | cons f A ih =>
    rw [List.cons_append]
    simp only [modifyLoop] at h ⊢
    by_cases h1 : existsSync fs f.1 = false
    · rw [if_pos h1] at h; exact absurd (congrArg Prod.snd h) (by simp)
    · rw [if_neg h1] at h ⊢
      by_cases h2 : isFileSync fs f.1 = false
      · rw [if_pos h2] at h; exact absurd (congrArg Prod.snd h) (by simp)
      · rw [if_neg h2] at h ⊢
        by_cases h3 : existsSync (writeFileSync fs f.1 f.2) f.1 = false ∨
          readFileSync (writeFileSync fs f.1 f.2) f.1 ≠ some f.2
        · rw [if_pos h3] at h; exact absurd (congrArg Prod.snd h) (by simp)
        · rw [if_neg h3] at h ⊢
          exact ih _ h

/-- A successfully processed prefix of `rename`'s loop. -/
theorem renameLoop_append (A B : List (String × String)) (fs fs1 : FileSystem)
    (h : renameLoop fs A = (fs1, true)) :
    renameLoop fs (A ++ B) = renameLoop fs1 B := by
  induction A generalizing fs with
  | nil =>
    simp only [renameLoop, Prod.mk.injEq] at h
    rw [List.nil_append, h.1]
  | cons f A ih =>
    rw [List.cons_append]
    simp only [renameLoop] at h ⊢
    by_cases h1 : existsSync fs f.1 = false
    · rw [if_pos h1] at h; exact absurd (congrArg Prod.snd h) (by simp)
    · rw [if_neg h1] at h ⊢
      by_cases h2 : existsSync fs f.2 = true
      · rw [if_pos h2] at h; exact absurd (congrArg Prod.snd h) (by simp)
      · rw [if_neg h2] at h ⊢
        by_cases h3 : isFileSync fs f.1 = false
        · rw [if_pos h3] at h; exact absurd (congrArg Prod.snd h) (by simp)
        · rw [if_neg h3] at h ⊢
          by_cases h4 : existsSync (renameSync fs f.1 f.2) f.2 = false ∨
            existsSync (renameSync fs f.1 f.2) f.1 = true
          · rw [if_pos h4] at h; exact absurd (congrArg Prod.snd h) (by simp)
          · rw [if_neg h4] at h ⊢
            exact ih _ h

/-- Claim C10: the test-helper file operations are not atomic on error — if
every entry before the k-th succeeds and the k-th fails its precondition
check, the function throws (`none`) while the file system keeps the side
effects of the earlier entries (it is the prefix's final state, with no
rollback); on success, `remove` returns the joined absolute paths of every
deleted file.  The analogous non-atomicity holds for `add`, `modify` and
`rename`. -/
theorem test_helper_not_atomic :
    (∀ (join : String → String → String) (fs : FileSystem) (rp : String)
       (l1 : List String) (x : String) (rest : List String) (fs1 : FileSystem),
       removeLoop fs (l1.map (join rp)) = (fs1, true) →
       existsSync fs1 (join rp x) = false ∨ isFileSync fs1 (join rp x) = false →
       remove join fs rp (l1 ++ x :: rest) = (fs1, none)) ∧
    (∀ (join : String → String → String) (fs : FileSystem) (rp : String)
       (l : List String) (fs1 : FileSystem),
       removeLoop fs (l.map (join rp)) = (fs1, true) →
       remove join fs rp l = (fs1, some (l.map (join rp)))) ∧
    (∀ (join : String → String → String) (fs : FileSystem) (rp : String)
       (l1 : List (String × Option String)) (x : String) (d : Option String)
       (rest : List (String × Option String)) (fs1 : FileSystem),
       addLoop fs (l1.map (fun f => (join rp f.1, f.2.getD ""))) = (fs1, true) →
       existsSync fs1 (join rp x) = true →
       add join fs rp (l1 ++ (x, d) :: rest) = (fs1, none)) ∧
    (∀ (join : String → String → String) (fs : FileSystem) (rp : String)
       (l1 : List (String × String)) (x d : String)
       (rest : List (String × String)) (fs1 : FileSystem),
       modifyLoop fs (l1.map (fun f => (join rp f.1, f.2))) = (fs1, true) →
       existsSync fs1 (join rp x) = false ∨ isFileSync fs1 (join rp x) = false →
       modify join fs rp (l1 ++ (x, d) :: rest) = (fs1, none)) ∧
    (∀ (join : String → String → String) (fs : FileSystem) (rp : String)
       (l1 : List (String × String)) (o n : String)
       (rest : List (String × String)) (fs1 : FileSystem),
       renameLoop fs (l1.map (fun f => (join rp f.1, join rp f.2))) = (fs1, true) →
       existsSync fs1 (join rp o) = false ∨ existsSync fs1 (join rp n) = true ∨
         isFileSync fs1 (join rp o) = false →
       rename join fs rp (l1 ++ (o, n) :: rest) = (fs1, none)) := by
  refine ⟨?_, ?_, ?_, ?_, ?_⟩
  · intro join fs rp l1 x rest fs1 hpre hfail
    have hmap : (l1 ++ x :: rest).map (join rp) =
        l1.map (join rp) ++ (join rp x :: rest.map (join rp)) := by simp
    have hloop : removeLoop fs1 (join rp x :: rest.map (join rp)) = (fs1, false) := by
      rcases hfail with h | h
      · simp [removeLoop, h]
      · by_cases he : existsSync fs1 (join rp x) = false
        · simp [removeLoop, he]
        · simp [removeLoop, he, h]
    simp only [remove, hmap, removeLoop_append _ _ _ _ hpre, hloop]
    simp
  · intro join fs rp l fs1 hpre
    simp [remove, hpre]
  · intro join fs rp l1 x d rest fs1 hpre hfail
    have hmap : (l1 ++ (x, d) :: rest).map (fun f => (join rp f.1, f.2.getD "")) =
        l1.map (fun f => (join rp f.1, f.2.getD "")) ++
          ((join rp x, d.getD "") :: rest.map (fun f => (join rp f.1, f.2.getD ""))) := by
      simp
    have hloop : addLoop fs1 ((join rp x, d.getD "") ::
        rest.map (fun f => (join rp f.1, f.2.getD ""))) = (fs1, false) := by
      simp [addLoop, hfail]
    simp only [add, hmap, addLoop_append _ _ _ _ hpre, hloop]
    simp
  · intro join fs rp l1 x d rest fs1 hpre hfail
    have hmap : (l1 ++ (x, d) :: rest).map (fun f => (join rp f.1, f.2)) =
        l1.map (fun f => (join rp f.1, f.2)) ++
          ((join rp x, d) :: rest.map (fun f => (join rp f.1, f.2))) := by
      simp
    have hloop : modifyLoop fs1 ((join rp x, d) ::
        rest.map (fun f => (join rp f.1, f.2))) = (fs1, false) := by
      rcases hfail with h | h
      · simp [modifyLoop, h]
      · by_cases he : existsSync fs1 (join rp x) = false
        · simp [modifyLoop, he]
        · simp [modifyLoop, he, h]
    simp only [modify, hmap, modifyLoop_append _ _ _ _ hpre, hloop]
    simp
  · intro join fs rp l1 o n rest fs1 hpre hfail
    have hmap : (l1 ++ (o, n) :: rest).map (fun f => (join rp f.1, join rp f.2)) =
        l1.map (fun f => (join rp f.1, join rp f.2)) ++
          ((join rp o, join rp n) :: rest.map (fun f => (join rp f.1, join rp f.2))) := by
      simp
    have hloop : renameLoop fs1 ((join rp o, join rp n) ::
        rest.map (fun f => (join rp f.1, join rp f.2))) = (fs1, false) := by
      rcases hfail with h | h | h
      · simp [renameLoop, h]
      · by_cases he : existsSync fs1 (join rp o) = false
        · simp [renameLoop, he]
        · simp [renameLoop, he, h]
      · by_cases he : existsSync fs1 (join rp o) = false
        · simp [renameLoop, he]
        · by_cases he2 : existsSync fs1 (join rp n) = true
          · simp [renameLoop, he, he2]
          · simp [renameLoop, he, he2, h]
    simp only [rename, hmap, renameLoop_append _ _ _ _ hpre, hloop]
    simp

/-- Witness for claim C10: each helper applied to a two-entry list whose
first entry succeeds and second fails, plus a successful `remove`. -/
theorem test_helper_not_atomic_witness :
    remove (fun _ b => b) [("a", FsEntry.file "x"), ("c", FsEntry.file "y")] ""
        (["a"] ++ "z" :: []) = ([("c", FsEntry.file "y")], none) ∧
    remove (fun _ b => b) [("a", FsEntry.file "x"), ("c", FsEntry.file "y")] "" ["a"] =
      ([("c", FsEntry.file "y")], some (["a"].map ((fun _ b => b) ""))) ∧
    add (fun _ b => b) [("a", FsEntry.file "x")] "" ([("b", some "d")] ++ ("a", none) :: []) =
      ([("b", FsEntry.file "d"), ("a", FsEntry.file "x")], none) ∧
    modify (fun _ b => b) [("a", FsEntry.file "x")] "" ([("a", "new")] ++ ("z", "w") :: []) =
      ([("a", FsEntry.file "new")], none) ∧
    rename (fun _ b => b) [("a", FsEntry.file "x")] "" ([("a", "b")] ++ ("z", "w") :: []) =
      ([("b", FsEntry.file "x")], none) :=
  ⟨test_helper_not_atomic.1 (fun _ b => b) [("a", FsEntry.file "x"), ("c", FsEntry.file "y")]
      "" ["a"] "z" [] [("c", FsEntry.file "y")] (by decide) (Or.inl (by decide)),
   test_helper_not_atomic.2.1 (fun _ b => b)
      [("a", FsEntry.file "x"), ("c", FsEntry.file "y")] "" ["a"]
      [("c", FsEntry.file "y")] (by decide),
   test_helper_not_atomic.2.2.1 (fun _ b => b) [("a", FsEntry.file "x")] ""
      [("b", some "d")] "a" none [] [("b", FsEntry.file "d"), ("a", FsEntry.file "x")]
      (by decide) (by decide),
   test_helper_not_atomic.2.2.2.1 (fun _ b => b) [("a", FsEntry.file "x")] ""
      [("a", "new")] "z" "w" [] [("a", FsEntry.file "new")] (by decide)
      (Or.inl (by decide)),
   test_helper_not_atomic.2.2.2.2 (fun _ b => b) [("a", FsEntry.file "x")] ""
      [("a", "b")] "z" "w" [] [("b", FsEntry.file "x")] (by decide)
      (Or.inl (by decide))⟩

end DugiteExtra
